import Mathlib

/-!
Verification of the rendering-cache core and the live-preview glue of the
`slint` (SixtyFPS) repository, shallowly embedded in Lean 4.

The embedding covers:
* `sixtyfps_runtime/corelib/graphics.rs`: `CachedGraphicsData`,
  `RenderingCache` and `FontRequest::merge`;
* `tools/lsp/preview.rs`: `set_contents` and `reload_preview`.

`RenderingCache` stores its entries in the external `slab::Slab` crate and
`CachedGraphicsData` uses `crate::properties::PropertyTracker`; both are
outside the sources at hand and are modelled from the specification.
-/

namespace Slint

/-- Modelled from the spec: one slot of the slot table. The table is a
"reusable-index container (insert/remove/get) with O(1) operations via
free-list recycling": a slot is either occupied by a value or vacant, a
vacant slot storing the index of the next slot on the free list. -/
inductive Entry (T : Type) where
  | vacant (next : Nat)
  | occupied (val : T)
deriving Repr, DecidableEq

/-- Modelled from the spec: the slot table used by `RenderingCache`
(the external `slab::Slab` dependency). `entries` is the backing vector,
`len` the number of occupied slots and `next` the head of the free list
(equal to `entries.length` when the free list is empty, meaning the next
insertion grows the table). -/
structure Slab (T : Type) where
  entries : List (Entry T)
  len : Nat
  next : Nat
deriving Repr, DecidableEq

namespace Slab

/-- Modelled from the spec: a freshly constructed, empty slot table. -/
def new (T : Type) : Slab T := ⟨[], 0, 0⟩

/-- Modelled from the spec: lookup of the value at a slot index. Returns
`none` when the index does not denote a currently occupied slot. -/
def get (s : Slab T) (key : Nat) : Option T :=
  match s.entries[key]? with
  | some (.occupied val) => some val
  | _ => none

/-- Modelled from the spec: insertion "returns a previously-freed slot if
available (slot reuse) or grows the table". The returned `none` models the
unreachable free-list-corruption panic of the crate, which cannot happen in
a well-formed table. -/
def insert (s : Slab T) (val : T) : Option (Nat × Slab T) :=
  if s.next = s.entries.length then
    some (s.next, ⟨s.entries ++ [.occupied val], s.len + 1, s.next + 1⟩)
  else
    match s.entries[s.next]? with
    | some (.vacant n) =>
        some (s.next, ⟨s.entries.set s.next (.occupied val), s.len + 1, n⟩)
    | _ => none

/-- Modelled from the spec: removal returns ownership of the value at the
slot and pushes the slot onto the free list; removing a slot that is not
occupied is a contract violation that panics, modelled by `none`. -/
def remove (s : Slab T) (key : Nat) : Option (T × Slab T) :=
  match s.entries[key]? with
  | some (.occupied val) =>
      some (val, ⟨s.entries.set key (.vacant s.next), s.len - 1, key⟩)
  | _ => none

/-- Modelled from the spec: emptying the slot table ("the slot table
contains zero entries" afterwards). -/
def clear (_s : Slab T) : Slab T := ⟨[], 0, 0⟩

end Slab

/-- Modelled from the spec: the dependency tracker of the reactive property
system (`crate::properties::PropertyTracker`, outside the sources at hand).
It "records which reactive properties were read during a computation";
we record the identifiers of the read properties. -/
structure PropertyTracker where
  dependencies : List Nat
deriving Repr, DecidableEq

/-- Modelled from the spec: a freshly created tracker has observed nothing. -/
def PropertyTracker.default : PropertyTracker := ⟨[]⟩

/-- Modelled from the spec: a zero-argument, side-effect-bearing computation.
It transforms an ambient state `σ`, produces a value of type `T`, and reads
a set of reactive properties (reported as a list of identifiers). -/
def Computation (σ T : Type) := σ → T × σ × List Nat

/-- Modelled from the spec: `PropertyTracker::evaluate` runs the computation
while the tracker is the active observer, so that "any reactive property
read during `compute` is registered as a dependency" of the tracker. -/
def PropertyTracker.evaluate (tr : PropertyTracker) (update_fn : Computation σ T)
    (s : σ) : T × PropertyTracker × σ :=
  let r := update_fn s
  (r.1, ⟨tr.dependencies ++ r.2.2⟩, r.2.1)

/-- `CachedGraphicsData` from `graphics.rs`: the backend specific data
together with the property tracker used to decide whether the primitive
needs to be re-created. -/
structure CachedGraphicsData (T : Type) where
  data : T
  dependency_tracker : PropertyTracker
deriving Repr, DecidableEq

/-- `CachedGraphicsData::new` from `graphics.rs`: creates a fresh dependency
tracker, evaluates `update_fn` once under it and stores the result. The
ambient state `σ` makes the side effects of `update_fn` visible. -/
def CachedGraphicsData.new (update_fn : Computation σ T) (s : σ) :
    CachedGraphicsData T × σ :=
  let dependency_tracker := PropertyTracker.default
  let r := dependency_tracker.evaluate update_fn s
  (⟨r.1, r.2.1⟩, r.2.2)

/-- `RenderingCache` from `graphics.rs`: a slot table of cached graphics
data plus the generation counter. -/
structure RenderingCache (T : Type) where
  slab : Slab (CachedGraphicsData T)
  generation : Nat
deriving Repr, DecidableEq

namespace RenderingCache

/-- `Default for RenderingCache` from `graphics.rs`: empty slab,
generation 1. -/
def default (T : Type) : RenderingCache T :=
  ⟨Slab.new (CachedGraphicsData T), 1⟩

/-- `RenderingCache::get` from `graphics.rs`. -/
def get (c : RenderingCache T) (index : Nat) : Option (CachedGraphicsData T) :=
  c.slab.get index

/-- `RenderingCache::get_mut` from `graphics.rs`: same lookup as `get`; in
this functional embedding the mutable reference is rendered by the looked-up
entry itself. -/
def get_mut (c : RenderingCache T) (index : Nat) : Option (CachedGraphicsData T) :=
  c.slab.get index

/-- `RenderingCache::insert` from `graphics.rs`: delegates to the slab. -/
def insert (c : RenderingCache T) (data : CachedGraphicsData T) :
    Option (Nat × RenderingCache T) :=
  (c.slab.insert data).map (fun p => (p.1, ⟨p.2, c.generation⟩))

/-- `RenderingCache::remove` from `graphics.rs`: delegates to the slab;
`none` models the panic on a non-occupied index. -/
def remove (c : RenderingCache T) (index : Nat) :
    Option (CachedGraphicsData T × RenderingCache T) :=
  (c.slab.remove index).map (fun p => (p.1, ⟨p.2, c.generation⟩))

/-- `RenderingCache::clear` from `graphics.rs`: removes all entries and
increases the generation count. -/
def clear (c : RenderingCache T) : RenderingCache T :=
  ⟨c.slab.clear, c.generation + 1⟩

/-- One call of the public cache API, for reasoning about arbitrary
operation sequences. -/
inductive Op (T : Type) where
  | insert (data : CachedGraphicsData T)
  | get (index : Nat)
  | get_mut (index : Nat)
  | remove (index : Nat)
  | clear
deriving Repr, DecidableEq

/-- Whether an operation is a `clear`. -/
def Op.isClear : Op T → Bool
  | .clear => true
  | _ => false

/-- Executes one operation; `none` models a panic. The second component
collects the index returned when the operation is an insertion. -/
def stepT (c : RenderingCache T) : Op T → Option (RenderingCache T × List Nat)
  | .insert d => (c.insert d).map (fun p => (p.2, [p.1]))
  | .get _ => some (c, [])
  | .get_mut _ => some (c, [])
  | .remove i => (c.remove i).map (fun p => (p.2, []))
  | .clear => some (c.clear, [])

/-- Executes a sequence of operations, threading the cache state and
collecting every index returned by an insertion; `none` models a panic. -/
def runT (c : RenderingCache T) : List (Op T) → Option (RenderingCache T × List Nat)
  | [] => some (c, [])
  | op :: ops =>
    match c.stepT op with
    | none => none
    | some p =>
      match p.1.runT ops with
      | none => none
      | some q => some (q.1, p.2 ++ q.2)

/-- Executes a sequence of insertions with no intervening remove or clear,
collecting the returned indices. -/
def insertAll (c : RenderingCache T) :
    List (CachedGraphicsData T) → Option (List Nat × RenderingCache T)
  | [] => some ([], c)
  | d :: ds =>
    match c.insert d with
    | none => none
    | some p =>
      match p.2.insertAll ds with
      | none => none
      | some q => some (p.1 :: q.1, q.2)

end RenderingCache

/-- The free-list chain of a slot table: `FreeChain entries n l` states that,
starting from head `n`, the free list visits exactly the slots in `l` (each
vacant, each storing the index of its successor) and ends at
`entries.length` (the sentinel meaning "grow the table"). -/
def FreeChain (entries : List (Entry T)) : Nat → List Nat → Prop
  | n, [] => n = entries.length
  | n, k :: ks =>
    n = k ∧ ∃ m, entries[k]? = some (Entry.vacant m) ∧ FreeChain entries m ks

/-- Well-formedness of a slot table: its free list is a duplicate-free
chain. Every table reachable through the public API is well-formed. -/
def Slab.WF (s : Slab T) : Prop :=
  ∃ l, l.Nodup ∧ FreeChain s.entries s.next l

/-- Well-formedness of a rendering cache: its slot table is well-formed. -/
def RenderingCache.WF (c : RenderingCache T) : Prop :=
  c.slab.WF

/-- `FontRequest` from `graphics.rs`: the developer-configurable font
properties. `SharedString` is rendered as `String`, `i32` as `Int` and
`f32` as `Float`; `merge` never computes with these values. -/
structure FontRequest where
  family : Option String
  weight : Option Int
  pixel_size : Option Float
  letter_spacing : Option Float

/-- `derive(Default)` for `FontRequest`: every field is `None`. -/
def FontRequest.default : FontRequest :=
  ⟨none, none, none, none⟩

/-- `FontRequest::merge` from `graphics.rs`: consumes the request and
replaces any missing field from the other request (`Option::or` /
`Option::or_else` on every field). -/
def FontRequest.merge (self : FontRequest) (other : FontRequest) : FontRequest :=
  ⟨self.family.or other.family,
   self.weight.or other.weight,
   self.pixel_size.or other.pixel_size,
   self.letter_spacing.or other.letter_spacing⟩

/-- Modelled from the spec: the health status carried by the server-status
notification (`crate::lsp_ext::Health`, outside the sources at hand),
"Ok/Error". -/
inductive Health where
  | ok
  | error
deriving Repr, DecidableEq

/-- Modelled from the spec: the payload of the server-status notification
sent to the external listener (`crate::lsp_ext::ServerStatusParams`,
outside the sources at hand): a health status and a human-readable text. -/
structure ServerStatusParams where
  health : Health
  quiescent : Bool
  message : Option String
deriving Repr, DecidableEq

/-- `send_notification` from `preview.rs`, rendered as the message it hands
to the sender (delivery failures are logged, not propagated). -/
def send_notification (arg : String) (health : Health) : ServerStatusParams :=
  ⟨health, false, some arg⟩

/-- Assoc-list insertion with replacement, modelling `HashMap::insert` for
the content cache (paths are rendered as strings). -/
def mapInsert (m : List (String × String)) (k v : String) : List (String × String) :=
  match m with
  | [] => [(k, v)]
  | kv :: rest => if kv.1 = k then (k, v) :: rest else kv :: mapInsert rest k v

/-- Assoc-list lookup, modelling `HashMap::get` for the content cache. -/
def mapGet (m : List (String × String)) (k : String) : Option String :=
  match m with
  | [] => none
  | kv :: rest => if kv.1 = k then some kv.2 else mapGet rest k

/-- Duplicate-free insertion, modelling `HashSet::insert` for the
dependency set. -/
def setInsert (s : List String) (k : String) : List String :=
  if k ∈ s then s else s ++ [k]

/-- `ContentCache` from `preview.rs`: the shared store of file contents,
registered dependencies, current root path and the stashed notification
sender (senders are rendered by numeric handles). -/
structure ContentCache where
  source_code : List (String × String)
  dependency : List String
  current_root : String
  sender : Option Nat
deriving Repr, DecidableEq

/-- `derive(Default)` for `ContentCache`. -/
def ContentCache.default : ContentCache :=
  ⟨[], [], "", none⟩

/-- `set_contents` from `preview.rs`: stores the content under the path
and, when the path is a registered dependency, takes the sender out of the
cache; the second component is the `load_preview` request it triggers
(sender and current root), if any. -/
def set_contents (cache : ContentCache) (path : String) (content : String) :
    ContentCache × Option (Nat × String) :=
  let cache1 : ContentCache :=
    { cache with source_code := mapInsert cache.source_code path content }
  if path ∈ cache1.dependency then
    let current_root := cache1.current_root
    let sender := cache1.sender
    let cache2 : ContentCache := { cache1 with sender := none }
    match sender with
    | some s => (cache2, some (s, current_root))
    | none => (cache2, none)
  else
    (cache1, none)

/-- Modelled from the spec: a component instance created by the interpreter
(`sixtyfps_interpreter::ComponentInstance`, outside the sources at hand).
A compiled component is identified by a number; an instance records the
component it was created from, its window and its visibility. -/
structure ComponentInstance where
  component : Nat
  window : Nat
  visible : Bool
deriving Repr, DecidableEq

/-- Modelled from the spec: `ComponentInstance::show` makes the instance's
window visible. -/
def ComponentInstance.show (h : ComponentInstance) : ComponentInstance :=
  { h with visible := true }

namespace Component

/-- Modelled from the spec: `create_with_existing_window` instantiates the
compiled component reusing the given window. -/
def create_with_existing_window (compiled window : Nat) : ComponentInstance :=
  ⟨compiled, window, false⟩

/-- Modelled from the spec: `create` instantiates the compiled component
with a fresh window (identified with the component here). -/
def create (compiled : Nat) : ComponentInstance :=
  ⟨compiled, compiled, false⟩

end Component

/-- `PreviewState` from `preview.rs`: the currently shown component
instance, if any. -/
structure PreviewState where
  handle : Option ComponentInstance
deriving Repr, DecidableEq

/-- `PostLoadBehavior` from `preview.rs`. -/
inductive PostLoadBehavior where
  | showAfterLoad
  | doNothing
deriving Repr, DecidableEq

/-- The outcome of one `reload_preview` call: the updated content cache and
preview state, and the notifications sent to the listener, in order. -/
structure ReloadResult where
  cache : ContentCache
  preview : PreviewState
  sent : List ServerStatusParams
deriving Repr, DecidableEq

/-- `reload_preview` from `preview.rs`. The component compiler is external
and abstracted by `compile`, mapping the source text found in the content
cache for `path` (if any — otherwise the compiler reads the path from
disk) to the compiled component, or `none` on a failed compile. Dependency
registrations performed by the compiler's file loader for imported files
are outside the sources at hand and are not modelled; the top-level
registration of `path` itself is. -/
def reload_preview (cache : ContentCache) (preview : PreviewState)
    (sender : Nat) (path : String) (post_load_behavior : PostLoadBehavior)
    (compile : Option String → Option Nat) : ReloadResult :=
  let sent1 := [send_notification "Loading Preview…" Health.ok]
  let cache1 : ContentCache := { cache with dependency := [], current_root := path }
  let from_cache := mapGet cache1.source_code path
  let cache2 : ContentCache :=
    { cache1 with dependency := setInsert cache1.dependency path }
  match compile from_cache with
  | some compiled =>
    let preview2 : PreviewState :=
      match preview.handle with
      | some handle =>
        let window := handle.window
        let handle2 := Component.create_with_existing_window compiled window
        let handle3 :=
          match post_load_behavior with
          | .showAfterLoad => handle2.show
          | .doNothing => handle2
        ⟨some handle3⟩
      | none => ⟨some (Component.create compiled).show⟩
    ⟨{ cache2 with sender := some sender }, preview2,
      sent1 ++ [send_notification "Preview Loaded" Health.ok]⟩
  | none =>
    ⟨{ cache2 with sender := some sender }, preview,
      sent1 ++ [send_notification "Preview not upated" Health.error]⟩

/-! ## Lemmas about the slot table -/

theorem lt_length_of_getElem_eq_some {α : Type} {l : List α} {i : Nat} {x : α}
    (h : l[i]? = some x) : i < l.length := by
  by_contra hc
  rw [List.getElem?_eq_none (Nat.le_of_not_lt hc)] at h
  exact Option.noConfusion h

namespace Slab

theorem get_eq_some_iff {s : Slab T} {i : Nat} {v : T} :
    s.get i = some v ↔ s.entries[i]? = some (Entry.occupied v) := by
  unfold get
  cases h : s.entries[i]? with
  | none => simp
  | some e => cases e <;> simp

theorem get_eq_none_iff {s : Slab T} {i : Nat} :
    s.get i = none ↔ ∀ v, s.entries[i]? ≠ some (Entry.occupied v) := by
  unfold get
  cases h : s.entries[i]? with
  | none => simp
  | some e => cases e <;> simp

theorem insert_inv {s : Slab T} {v : T} {k : Nat} {s' : Slab T}
    (h : s.insert v = some (k, s')) :
    k = s.next ∧
      ((s.next = s.entries.length ∧
          s' = ⟨s.entries ++ [Entry.occupied v], s.len + 1, s.next + 1⟩) ∨
        (s.next ≠ s.entries.length ∧
          ∃ m, s.entries[s.next]? = some (Entry.vacant m) ∧
            s' = ⟨s.entries.set s.next (Entry.occupied v), s.len + 1, m⟩)) := by
  unfold insert at h
  split at h
  · next hn =>
    simp only [Option.some.injEq, Prod.mk.injEq] at h
    exact ⟨h.1.symm, Or.inl ⟨hn, h.2.symm⟩⟩
  · next hn =>
    split at h
    · next m heq =>
      simp only [Option.some.injEq, Prod.mk.injEq] at h
      exact ⟨h.1.symm, Or.inr ⟨hn, m, heq, h.2.symm⟩⟩
    · exact absurd h (by simp)

theorem remove_inv {s : Slab T} {i : Nat} {v : T} {s' : Slab T}
    (h : s.remove i = some (v, s')) :
    s.entries[i]? = some (Entry.occupied v) ∧
      s' = ⟨s.entries.set i (Entry.vacant s.next), s.len - 1, i⟩ := by
  unfold remove at h
  split at h
  · next w heq =>
    simp only [Option.some.injEq, Prod.mk.injEq] at h
    exact ⟨h.1 ▸ heq, h.2.symm⟩
  · exact absurd h (by simp)

theorem remove_eq_none_of_get_eq_none {s : Slab T} {i : Nat}
    (h : s.get i = none) : s.remove i = none := by
  unfold remove
  split
  · next w heq => rw [get_eq_none_iff] at h; exact absurd heq (h w)
  · rfl

theorem remove_of_get_eq_some {s : Slab T} {i : Nat} {v : T}
    (h : s.get i = some v) :
    s.remove i = some (v, ⟨s.entries.set i (Entry.vacant s.next), s.len - 1, i⟩) := by
  rw [get_eq_some_iff] at h
  unfold remove
  rw [h]

theorem get_clear (s : Slab T) (i : Nat) : (s.clear).get i = none := by
  rw [get_eq_none_iff]
  intro v
  simp [clear]

theorem insert_get_self {s : Slab T} {v : T} {k : Nat} {s' : Slab T}
    (h : s.insert v = some (k, s')) : s'.get k = some v := by
  obtain ⟨rfl, hb | hb⟩ := insert_inv h
  · obtain ⟨hn, rfl⟩ := hb
    rw [get_eq_some_iff]
    show (s.entries ++ [Entry.occupied v])[s.next]? = _
    rw [hn]
    exact List.getElem?_concat_length _ _
  · obtain ⟨hn, m, hm, rfl⟩ := hb
    rw [get_eq_some_iff]
    show (s.entries.set s.next (Entry.occupied v))[s.next]? = _
    exact List.getElem?_set_eq (lt_length_of_getElem_eq_some hm)

theorem insert_get_none_before {s : Slab T} {v : T} {k : Nat} {s' : Slab T}
    (h : s.insert v = some (k, s')) : s.get k = none := by
  obtain ⟨rfl, hb | hb⟩ := insert_inv h
  · rw [get_eq_none_iff]
    intro w
    rw [List.getElem?_eq_none (le_of_eq hb.1.symm)]
    simp
  · obtain ⟨hn, m, hm, rfl⟩ := hb
    rw [get_eq_none_iff]
    intro w
    rw [hm]
    simp

theorem insert_get_other {s : Slab T} {v : T} {k : Nat} {s' : Slab T}
    (h : s.insert v = some (k, s')) (i : Nat) (hik : i ≠ k) :
    s'.get i = s.get i := by
  obtain ⟨rfl, hb | hb⟩ := insert_inv h
  · obtain ⟨hn, rfl⟩ := hb
    unfold get
    show (match (s.entries ++ [Entry.occupied v])[i]? with
      | some (Entry.occupied val) => some val | _ => none) = _
    by_cases hlt : i < s.entries.length
    · rw [List.getElem?_append, if_pos hlt]
    · have hne : i ≠ s.entries.length := fun he => hik (he.trans hn.symm)
      have h1 : s.entries.length ≤ i := Nat.le_of_not_lt hlt
      rw [List.getElem?_eq_none (l := s.entries) h1,
        List.getElem?_eq_none (by simp; omega)]
  · obtain ⟨hn, m, hm, rfl⟩ := hb
    unfold get
    show (match (s.entries.set s.next (Entry.occupied v))[i]? with
      | some (Entry.occupied val) => some val | _ => none) = _
    rw [List.getElem?_set_ne (fun he => hik he.symm)]

theorem remove_get_self {s : Slab T} {i : Nat} {v : T} {s' : Slab T}
    (h : s.remove i = some (v, s')) : s'.get i = none ∧ s.get i = some v := by
  obtain ⟨hi, rfl⟩ := remove_inv h
  constructor
  · rw [get_eq_none_iff]
    intro w
    show (s.entries.set i (Entry.vacant s.next))[i]? ≠ _
    rw [List.getElem?_set_eq (lt_length_of_getElem_eq_some hi)]
    simp
  · rw [get_eq_some_iff]
    exact hi

theorem remove_get_other {s : Slab T} {i : Nat} {v : T} {s' : Slab T}
    (h : s.remove i = some (v, s')) (j : Nat) (hij : j ≠ i) :
    s'.get j = s.get j := by
  obtain ⟨hi, rfl⟩ := remove_inv h
  unfold get
  show (match (s.entries.set i (Entry.vacant s.next))[j]? with
    | some (Entry.occupied val) => some val | _ => none) = _
  rw [List.getElem?_set_ne (fun he => hij he.symm)]

end Slab

theorem FreeChain.mem_vacant {entries : List (Entry T)} {n : Nat} {l : List Nat}
    (h : FreeChain entries n l) {k : Nat} (hk : k ∈ l) :
    ∃ m, entries[k]? = some (Entry.vacant m) := by
  induction l generalizing n with
  | nil => cases hk
  | cons a as ih =>
    obtain ⟨rfl, m, hm, hrest⟩ := h
    rcases List.mem_cons.mp hk with rfl | hk2
    · exact ⟨m, hm⟩
    · exact ih hrest hk2

theorem FreeChain.set_not_mem {entries : List (Entry T)} {k : Nat} {e : Entry T}
    {n : Nat} {l : List Nat} (hk : k ∉ l) (h : FreeChain entries n l) :
    FreeChain (entries.set k e) n l := by
  induction l generalizing n with
  | nil => simpa [FreeChain] using h
  | cons a as ih =>
    obtain ⟨rfl, m, hm, hrest⟩ := h
    refine ⟨rfl, m, ?_, ih (fun hmem => hk (List.mem_cons_of_mem _ hmem)) hrest⟩
    rw [List.getElem?_set_ne (fun he => hk (by rw [he]; exact List.mem_cons_self _ _))]
    exact hm

namespace Slab

theorem new_WF (T : Type) : (Slab.new T).WF :=
  ⟨[], List.nodup_nil, by simp [FreeChain, Slab.new]⟩

theorem clear_WF (s : Slab T) : (s.clear).WF :=
  ⟨[], List.nodup_nil, by simp [FreeChain, Slab.clear]⟩

theorem insert_isSome_of_WF {s : Slab T} (hw : s.WF) (v : T) :
    ∃ k s', s.insert v = some (k, s') := by
  obtain ⟨l, hnd, hch⟩ := hw
  unfold insert
  by_cases hn : s.next = s.entries.length
  · exact ⟨_, _, by rw [if_pos hn]⟩
  · rw [if_neg hn]
    cases l with
    | nil => simp only [FreeChain] at hch; exact absurd hch hn
    | cons a as =>
      obtain ⟨rfl, m, hm, _⟩ := hch
      rw [hm]
      exact ⟨_, _, rfl⟩

theorem insert_WF {s : Slab T} {v : T} {k : Nat} {s' : Slab T}
    (h : s.insert v = some (k, s')) (hw : s.WF) : s'.WF := by
  obtain ⟨l, hnd, hch⟩ := hw
  obtain ⟨rfl, hb | hb⟩ := insert_inv h
  · obtain ⟨hn, rfl⟩ := hb
    exact ⟨[], List.nodup_nil, by simp [FreeChain, hn]⟩
  · obtain ⟨hn, m, hm, rfl⟩ := hb
    cases l with
    | nil => simp only [FreeChain] at hch; exact absurd hch hn
    | cons a as =>
      obtain ⟨rfl, m2, hm2, hrest⟩ := hch
      rw [hm] at hm2
      simp only [Option.some.injEq, Entry.vacant.injEq] at hm2
      subst hm2
      have hna : s.next ∉ as := (List.nodup_cons.mp hnd).1
      exact ⟨as, (List.nodup_cons.mp hnd).2, FreeChain.set_not_mem hna hrest⟩

theorem remove_WF {s : Slab T} {i : Nat} {v : T} {s' : Slab T}
    (h : s.remove i = some (v, s')) (hw : s.WF) : s'.WF := by
  obtain ⟨hi, rfl⟩ := remove_inv h
  obtain ⟨l, hnd, hch⟩ := hw
  have hnotmem : i ∉ l := by
    intro hmem
    obtain ⟨m, hm⟩ := FreeChain.mem_vacant hch hmem
    rw [hi] at hm
    simp at hm
  refine ⟨i :: l, List.nodup_cons.mpr ⟨hnotmem, hnd⟩, rfl, s.next, ?_, ?_⟩
  · rw [List.getElem?_set_eq (lt_length_of_getElem_eq_some hi)]
  · exact FreeChain.set_not_mem hnotmem hch

end Slab

/-! ## Lemmas about the rendering cache -/

namespace RenderingCache

theorem insert_some_inv {c : RenderingCache T} {d : CachedGraphicsData T} {k : Nat}
    {c' : RenderingCache T} (h : c.insert d = some (k, c')) :
    c.slab.insert d = some (k, c'.slab) ∧ c'.generation = c.generation := by
  unfold insert at h
  cases hs : c.slab.insert d with
  | none => rw [hs] at h; cases h
  | some p =>
    rw [hs] at h
    simp only [Option.map_some', Option.some.injEq] at h
    injection h with h1 h2
    subst h1
    subst h2
    exact ⟨rfl, rfl⟩

theorem remove_some_inv {c : RenderingCache T} {i : Nat} {v : CachedGraphicsData T}
    {c' : RenderingCache T} (h : c.remove i = some (v, c')) :
    c.slab.remove i = some (v, c'.slab) ∧ c'.generation = c.generation := by
  unfold remove at h
  cases hs : c.slab.remove i with
  | none => rw [hs] at h; cases h
  | some p =>
    rw [hs] at h
    simp only [Option.map_some', Option.some.injEq] at h
    injection h with h1 h2
    subst h1
    subst h2
    exact ⟨rfl, rfl⟩

theorem insert_total {c : RenderingCache T} (hw : c.WF)
    (d : CachedGraphicsData T) : ∃ k c', c.insert d = some (k, c') := by
  obtain ⟨k, s', hs⟩ := Slab.insert_isSome_of_WF hw d
  exact ⟨k, ⟨s', c.generation⟩, by unfold insert; rw [hs]; rfl⟩

theorem stepT_generation {c : RenderingCache T} {op : Op T}
    {p : RenderingCache T × List Nat} (h : c.stepT op = some p) :
    p.1.generation = (if op.isClear then c.generation + 1 else c.generation) := by
  cases op with
  | insert d =>
    cases hi : c.insert d with
    | none => simp [stepT, hi] at h
    | some q =>
      obtain ⟨k1, c1⟩ := q
      simp only [stepT, hi, Option.map_some'] at h
      obtain rfl := Option.some.inj h
      simpa [Op.isClear] using (insert_some_inv hi).2
  | get i =>
    simp only [stepT] at h
    obtain rfl := Option.some.inj h
    simp [Op.isClear]
  | get_mut i =>
    simp only [stepT] at h
    obtain rfl := Option.some.inj h
    simp [Op.isClear]
  | remove i =>
    cases hr : c.remove i with
    | none => simp [stepT, hr] at h
    | some q =>
      obtain ⟨v1, c1⟩ := q
      simp only [stepT, hr, Option.map_some'] at h
      obtain rfl := Option.some.inj h
      simpa [Op.isClear] using (remove_some_inv hr).2
  | clear =>
    simp only [stepT] at h
    obtain rfl := Option.some.inj h
    simp [Op.isClear, clear]

theorem runT_cons_inv {c : RenderingCache T} {op : Op T} {ops : List (Op T)}
    {p : RenderingCache T × List Nat} (h : c.runT (op :: ops) = some p) :
    ∃ q r, c.stepT op = some q ∧ q.1.runT ops = some r ∧ p = (r.1, q.2 ++ r.2) := by
  cases hs : c.stepT op with
  | none => simp [runT, hs] at h
  | some q =>
    cases hr : q.1.runT ops with
    | none => simp [runT, hs, hr] at h
    | some r =>
      simp only [runT, hs, hr] at h
      exact ⟨q, r, rfl, hr, (Option.some.inj h).symm⟩

theorem runT_generation {ops : List (Op T)} {c : RenderingCache T}
    {p : RenderingCache T × List Nat} (h : c.runT ops = some p) :
    p.1.generation = c.generation + ops.countP Op.isClear := by
  induction ops generalizing c p with
  | nil =>
    simp only [runT] at h
    obtain rfl := Option.some.inj h
    simp
  | cons op ops ih =>
    obtain ⟨q, r, hs, hr, rfl⟩ := runT_cons_inv h
    have h1 := stepT_generation hs
    have h2 := ih hr
    simp only [List.countP_cons]
    rw [h2, h1]
    cases hcl : op.isClear <;> simp [hcl] <;> try omega

theorem stepT_WF {c : RenderingCache T} {op : Op T}
    {p : RenderingCache T × List Nat} (h : c.stepT op = some p) (hw : c.WF) :
    p.1.WF := by
  cases op with
  | insert d =>
    cases hi : c.insert d with
    | none => simp [stepT, hi] at h
    | some q =>
      obtain ⟨k1, c1⟩ := q
      simp only [stepT, hi, Option.map_some'] at h
      obtain rfl := Option.some.inj h
      exact Slab.insert_WF (insert_some_inv hi).1 hw
  | get i =>
    simp only [stepT] at h
    obtain rfl := Option.some.inj h
    exact hw
  | get_mut i =>
    simp only [stepT] at h
    obtain rfl := Option.some.inj h
    exact hw
  | remove i =>
    cases hr : c.remove i with
    | none => simp [stepT, hr] at h
    | some q =>
      obtain ⟨v1, c1⟩ := q
      simp only [stepT, hr, Option.map_some'] at h
      obtain rfl := Option.some.inj h
      exact Slab.remove_WF (remove_some_inv hr).1 hw
  | clear =>
    simp only [stepT] at h
    obtain rfl := Option.some.inj h
    exact Slab.clear_WF c.slab

theorem runT_WF {ops : List (Op T)} {c : RenderingCache T}
    {p : RenderingCache T × List Nat} (h : c.runT ops = some p) (hw : c.WF) :
    p.1.WF := by
  induction ops generalizing c p with
  | nil =>
    simp only [runT] at h
    obtain rfl := Option.some.inj h
    exact hw
  | cons op ops ih =>
    obtain ⟨q, r, hs, hr, rfl⟩ := runT_cons_inv h
    have hres := ih hr (stepT_WF hs hw)
    exact hres

theorem default_WF (T : Type) : (RenderingCache.default T).WF :=
  Slab.new_WF (CachedGraphicsData T)

theorem stepT_get_none {c : RenderingCache T} {op : Op T}
    {p : RenderingCache T × List Nat} (h : c.stepT op = some p) {i : Nat}
    (hg : c.get i = none) (hi : i ∉ p.2) : p.1.get i = none := by
  cases op with
  | insert d =>
    cases hins : c.insert d with
    | none => simp [stepT, hins] at h
    | some q =>
      obtain ⟨k1, c1⟩ := q
      simp only [stepT, hins, Option.map_some'] at h
      obtain rfl := Option.some.inj h
      have hne : i ≠ k1 := by
        intro he
        exact hi (by simp [he])
      calc c1.get i = c.get i := Slab.insert_get_other (insert_some_inv hins).1 i hne
        _ = none := hg
  | get j =>
    simp only [stepT] at h
    obtain rfl := Option.some.inj h
    exact hg
  | get_mut j =>
    simp only [stepT] at h
    obtain rfl := Option.some.inj h
    exact hg
  | remove j =>
    cases hr : c.remove j with
    | none => simp [stepT, hr] at h
    | some q =>
      obtain ⟨v1, c1⟩ := q
      simp only [stepT, hr, Option.map_some'] at h
      obtain rfl := Option.some.inj h
      by_cases hij : i = j
      · subst hij
        exact (Slab.remove_get_self (remove_some_inv hr).1).1
      · calc c1.get i = c.get i := Slab.remove_get_other (remove_some_inv hr).1 i hij
          _ = none := hg
  | clear =>
    simp only [stepT] at h
    obtain rfl := Option.some.inj h
    exact Slab.get_clear c.slab i

theorem runT_get_none {ops : List (Op T)} {c : RenderingCache T}
    {p : RenderingCache T × List Nat} (h : c.runT ops = some p) {i : Nat}
    (hg : c.get i = none) (hi : i ∉ p.2) : p.1.get i = none := by
  induction ops generalizing c p with
  | nil =>
    simp only [runT] at h
    obtain rfl := Option.some.inj h
    exact hg
  | cons op ops ih =>
    obtain ⟨q, r, hs, hr, rfl⟩ := runT_cons_inv h
    have hi1 : i ∉ q.2 := fun hm => hi (by simp [hm])
    have hi2 : i ∉ r.2 := fun hm => hi (by simp [hm])
    have hres := ih hr (stepT_get_none hs hg hi1) hi2
    exact hres

theorem insertAll_cons {c c1 c2 : RenderingCache T} {v : CachedGraphicsData T}
    {vs : List (CachedGraphicsData T)} {k : Nat} {ks : List Nat}
    (h1 : c.insert v = some (k, c1)) (h2 : c1.insertAll vs = some (ks, c2)) :
    c.insertAll (v :: vs) = some (k :: ks, c2) := by
  simp [insertAll, h1, h2]

theorem insertAll_spec {c : RenderingCache T} (hw : c.WF)
    (vals : List (CachedGraphicsData T)) :
    ∃ (ks : List Nat) (c' : RenderingCache T),
      c.insertAll vals = some (ks, c') ∧ c'.WF ∧
      ks.length = vals.length ∧ ks.Nodup ∧
      (∀ k ∈ ks, c.get k = none) ∧
      (∀ i w, c.get i = some w → c'.get i = some w) ∧
      (∀ (j k : Nat) (v : CachedGraphicsData T),
        ks[j]? = some k → vals[j]? = some v → c'.get k = some v) := by
  induction vals generalizing c with
  | nil =>
    refine ⟨[], c, rfl, hw, rfl, List.nodup_nil, by simp, fun i w hh => hh, ?_⟩
    intro j k v hk
    simp at hk
  | cons v vs ih =>
    obtain ⟨k0, c1, hcins⟩ := insert_total hw v
    have hw1 : c1.WF := Slab.insert_WF (insert_some_inv hcins).1 hw
    have hself : c1.get k0 = some v := Slab.insert_get_self (insert_some_inv hcins).1
    have hbefore : c.get k0 = none := Slab.insert_get_none_before (insert_some_inv hcins).1
    have hother : ∀ i, i ≠ k0 → c1.get i = c.get i :=
      fun i hi => Slab.insert_get_other (insert_some_inv hcins).1 i hi
    obtain ⟨ks, c', hall, hw', hlen, hnd, hnew, hmono, hidx⟩ := ih hw1
    have hk0ks : k0 ∉ ks := by
      intro hm
      rw [hnew k0 hm] at hself
      cases hself
    refine ⟨k0 :: ks, c', insertAll_cons hcins hall, hw', by simp [hlen],
      List.nodup_cons.mpr ⟨hk0ks, hnd⟩, ?_, ?_, ?_⟩
    · intro k hk
      rcases List.mem_cons.mp hk with rfl | hk2
      · exact hbefore
      · by_cases hke : k = k0
        · exact hke ▸ hbefore
        · rw [← hother k hke]
          exact hnew k hk2
    · intro i w hw2
      have hne : i ≠ k0 := by
        intro he
        rw [he, hbefore] at hw2
        cases hw2
      exact hmono i w (by rw [hother i hne]; exact hw2)
    · intro j k v2 hk hv
      cases j with
      | zero =>
        simp only [List.getElem?_cons_zero, Option.some.injEq] at hk hv
        subst hk
        subst hv
        exact hmono _ _ hself
      | succ j =>
        simp only [List.getElem?_cons_succ] at hk hv
        exact hidx j k v2 hk hv

end RenderingCache

/-! ## Claims about the rendering cache -/

/-- C1: for every sequence of `RenderingCache` operations executed from a
freshly constructed (`Default`) cache, `generation()` equals 1 plus the
number of `clear()` calls executed so far: it returns 1 on a fresh cache,
each `clear` increases it by exactly one, and no other operation changes
it (hence it is strictly increasing across clears). -/
theorem C1_generation_counts_clears (T : Type) (ops : List (RenderingCache.Op T))
    (p : RenderingCache T × List Nat)
    (h : (RenderingCache.default T).runT ops = some p) :
    p.1.generation = 1 + ops.countP RenderingCache.Op.isClear := by
  have h1 := RenderingCache.runT_generation h
  simp only [RenderingCache.default] at h1
  omega

/-- Witness for C1: the run `insert; clear; clear` from the fresh cache
ends at generation 3 = 1 + 2. -/
theorem C1_generation_counts_clears_witness :
    ((⟨⟨[], 0, 0⟩, 3⟩ : RenderingCache Nat), ([0] : List Nat)).1.generation =
      1 + ([RenderingCache.Op.insert ⟨5, ⟨[]⟩⟩, RenderingCache.Op.clear,
        RenderingCache.Op.clear] : List (RenderingCache.Op Nat)).countP
          RenderingCache.Op.isClear :=
  C1_generation_counts_clears Nat _ _ rfl

/-- C2: the cache does not internally validate staleness across clears:
the index 0 issued for the entry 7 before a `clear` aliases the slot
freshly inserted (entry 9) after the clear, and `get` on the stale index
returns the unrelated new slot's data; only the generation (1 before, 2
after) distinguishes the two. -/
theorem C2_stale_index_aliases_fresh_slot :
    ∃ (p q : Nat × RenderingCache Nat),
      (RenderingCache.default Nat).insert ⟨7, ⟨[]⟩⟩ = some p ∧
      p.2.clear.insert ⟨9, ⟨[]⟩⟩ = some q ∧
      q.1 = p.1 ∧
      q.2.get p.1 = some ⟨9, ⟨[]⟩⟩ ∧
      p.2.generation = 1 ∧ q.2.generation = 2 :=
  ⟨(0, ⟨⟨[Entry.occupied ⟨7, ⟨[]⟩⟩], 1, 1⟩, 1⟩),
   (0, ⟨⟨[Entry.occupied ⟨9, ⟨[]⟩⟩], 1, 1⟩, 2⟩),
   rfl, rfl, rfl, rfl, rfl, rfl⟩

/-- C3: `get`/`get_mut` return not-found (an absent value, never a panic)
exactly when the index does not denote a currently occupied slot: the two
lookups agree, not-found is equivalent to the slot not being occupied, a
fresh cache has no occupied slot, an index is not-found immediately after
`remove`, after `clear` the table has zero entries and every index is
not-found, and a not-found index stays not-found along any run in which no
insertion returns it. -/
theorem C3_get_not_found_semantics (T : Type) :
    (∀ (c : RenderingCache T) (i : Nat), c.get i = c.get_mut i) ∧
    (∀ (c : RenderingCache T) (i : Nat),
      c.get i = none ↔ ∀ e, c.slab.entries[i]? ≠ some (Entry.occupied e)) ∧
    (∀ i : Nat, (RenderingCache.default T).get i = none) ∧
    (∀ (c c' : RenderingCache T) (i : Nat) (v : CachedGraphicsData T),
      c.remove i = some (v, c') → c'.get i = none) ∧
    (∀ c : RenderingCache T, (c.clear).slab.entries = [] ∧
      ∀ i : Nat, (c.clear).get i = none) ∧
    (∀ (ops : List (RenderingCache.Op T)) (c : RenderingCache T)
      (p : RenderingCache T × List Nat) (i : Nat),
      c.runT ops = some p → c.get i = none → i ∉ p.2 → p.1.get i = none) := by
  refine ⟨fun c i => rfl, fun c i => Slab.get_eq_none_iff, ?_, ?_, ?_, ?_⟩
  · intro i
    show (Slab.new (CachedGraphicsData T)).get i = none
    rw [Slab.get_eq_none_iff]
    intro e
    simp [Slab.new]
  · intro c c' i v h
    exact (Slab.remove_get_self (RenderingCache.remove_some_inv h).1).1
  · exact fun c => ⟨rfl, fun i => Slab.get_clear c.slab i⟩
  · intro ops c p i h hg hi
    exact RenderingCache.runT_get_none h hg hi

/-- Witness for C3: removing the only entry of a one-entry cache makes its
index not-found, and index 5 of the fresh cache stays not-found across a
`clear`. -/
theorem C3_get_not_found_semantics_witness :
    (⟨⟨[Entry.vacant 1], 0, 0⟩, 1⟩ : RenderingCache Nat).get 0 = none ∧
    (((⟨⟨[], 0, 0⟩, 2⟩ : RenderingCache Nat), ([] : List Nat)) :
      RenderingCache Nat × List Nat).1.get 5 = none :=
  ⟨(C3_get_not_found_semantics Nat).2.2.2.1
      ⟨⟨[Entry.occupied ⟨3, ⟨[]⟩⟩], 1, 1⟩, 1⟩ _ 0 ⟨3, ⟨[]⟩⟩ rfl,
   (C3_get_not_found_semantics Nat).2.2.2.2.2 [RenderingCache.Op.clear]
      (RenderingCache.default Nat) _ 5 rfl rfl (by simp)⟩

/-- C4: from any cache reachable through the public API, a sequence of
inserts with no intervening remove or clear always succeeds, the returned
indices are pairwise distinct, and each inserted entry is retrievable at
its returned index. -/
theorem C4_insert_indices_distinct (T : Type) (ops : List (RenderingCache.Op T))
    (p : RenderingCache T × List Nat) (vals : List (CachedGraphicsData T))
    (h : (RenderingCache.default T).runT ops = some p) :
    ∃ (ks : List Nat) (c' : RenderingCache T),
      p.1.insertAll vals = some (ks, c') ∧ ks.length = vals.length ∧
      ks.Nodup ∧
      ∀ (j k : Nat) (v : CachedGraphicsData T),
        ks[j]? = some k → vals[j]? = some v → c'.get k = some v := by
  have hw := RenderingCache.runT_WF h (RenderingCache.default_WF T)
  obtain ⟨ks, c', hall, _, hlen, hnd, _, _, hidx⟩ :=
    RenderingCache.insertAll_spec hw vals
  exact ⟨ks, c', hall, hlen, hnd, hidx⟩

/-- Witness for C4: two inserts into the fresh cache. -/
theorem C4_insert_indices_distinct_witness :
    ∃ (ks : List Nat) (c' : RenderingCache Nat),
      (((RenderingCache.default Nat), ([] : List Nat)) :
          RenderingCache Nat × List Nat).1.insertAll
          [⟨3, ⟨[]⟩⟩, ⟨4, ⟨[]⟩⟩] = some (ks, c') ∧
        ks.length = [(⟨3, ⟨[]⟩⟩ : CachedGraphicsData Nat), ⟨4, ⟨[]⟩⟩].length ∧
        ks.Nodup ∧
        ∀ (j k : Nat) (v : CachedGraphicsData Nat),
          ks[j]? = some k →
          [(⟨3, ⟨[]⟩⟩ : CachedGraphicsData Nat), ⟨4, ⟨[]⟩⟩][j]? = some v →
          c'.get k = some v :=
  C4_insert_indices_distinct Nat [] (RenderingCache.default Nat, [])
    [⟨3, ⟨[]⟩⟩, ⟨4, ⟨[]⟩⟩] rfl

/-- C5: slot-reuse scenario: from a fresh cache, inserting 3 entries
returns indices 0, 1, 2; after `remove 1` (which returns the middle
entry), the next insert reuses index 1, while indices 0 and 2 still hold
their original entries and the generation is still 1. -/
theorem C5_slot_reuse_scenario :
    ∃ (p : List Nat × RenderingCache Nat)
      (q : CachedGraphicsData Nat × RenderingCache Nat)
      (r : Nat × RenderingCache Nat),
      (RenderingCache.default Nat).insertAll
        [⟨10, ⟨[]⟩⟩, ⟨11, ⟨[]⟩⟩, ⟨12, ⟨[]⟩⟩] = some p ∧
      p.1 = [0, 1, 2] ∧
      p.2.remove 1 = some q ∧ q.1 = ⟨11, ⟨[]⟩⟩ ∧
      q.2.insert ⟨13, ⟨[]⟩⟩ = some r ∧ r.1 = 1 ∧
      r.2.get 0 = some ⟨10, ⟨[]⟩⟩ ∧ r.2.get 2 = some ⟨12, ⟨[]⟩⟩ ∧
      r.2.generation = 1 :=
  ⟨([0, 1, 2],
    ⟨⟨[Entry.occupied ⟨10, ⟨[]⟩⟩, Entry.occupied ⟨11, ⟨[]⟩⟩,
       Entry.occupied ⟨12, ⟨[]⟩⟩], 3, 3⟩, 1⟩),
   (⟨11, ⟨[]⟩⟩,
    ⟨⟨[Entry.occupied ⟨10, ⟨[]⟩⟩, Entry.vacant 3,
       Entry.occupied ⟨12, ⟨[]⟩⟩], 2, 1⟩, 1⟩),
   (1,
    ⟨⟨[Entry.occupied ⟨10, ⟨[]⟩⟩, Entry.occupied ⟨13, ⟨[]⟩⟩,
       Entry.occupied ⟨12, ⟨[]⟩⟩], 3, 3⟩, 1⟩),
   rfl, rfl, rfl, rfl, rfl, rfl, rfl, rfl, rfl⟩

/-- C6: `remove` on a currently occupied slot removes the slot and returns
ownership of exactly the entry stored there; `remove` on a non-occupied
index is a contract violation that panics (modelled by `none`) rather than
returning a recoverable error. -/
theorem C6_remove_contract (T : Type) (c : RenderingCache T) (i : Nat) :
    (∀ e, c.get i = some e →
      ∃ c', c.remove i = some (e, c') ∧ c'.get i = none) ∧
    (c.get i = none → c.remove i = none) := by
  constructor
  · intro e he
    have hs : c.slab.remove i =
        some (e, ⟨c.slab.entries.set i (Entry.vacant c.slab.next),
          c.slab.len - 1, i⟩) :=
      Slab.remove_of_get_eq_some he
    refine ⟨⟨⟨c.slab.entries.set i (Entry.vacant c.slab.next),
      c.slab.len - 1, i⟩, c.generation⟩, ?_, ?_⟩
    · unfold RenderingCache.remove
      rw [hs]
      rfl
    · exact (Slab.remove_get_self hs).1
  · intro he
    unfold RenderingCache.remove
    rw [Slab.remove_eq_none_of_get_eq_none he]
    rfl

/-- Witness for C6: removing the only entry of a one-entry cache returns
it and leaves its index not-found; removing from an empty cache panics. -/
theorem C6_remove_contract_witness :
    (∃ c', (⟨⟨[Entry.occupied ⟨5, ⟨[]⟩⟩], 1, 1⟩, 1⟩ :
        RenderingCache Nat).remove 0 = some (⟨5, ⟨[]⟩⟩, c') ∧
      c'.get 0 = none) ∧
    (⟨⟨[], 0, 0⟩, 1⟩ : RenderingCache Nat).remove 3 = none :=
  ⟨(C6_remove_contract Nat ⟨⟨[Entry.occupied ⟨5, ⟨[]⟩⟩], 1, 1⟩, 1⟩ 0).1
      ⟨5, ⟨[]⟩⟩ rfl,
   (C6_remove_contract Nat ⟨⟨[], 0, 0⟩, 1⟩ 3).2 rfl⟩

/-! ## Claims about the cached-entry constructor and font requests -/

/-- C7: `CachedGraphicsData::new` creates a fresh dependency tracker,
evaluates the computation exactly once while that tracker is the active
observer (so the tracker records exactly the properties the computation
reads, starting from the fresh tracker's empty record), and returns an
entry holding the computed value and that tracker; the ambient state is
transformed by exactly one application of the computation. -/
theorem C7_new_evaluates_once (σ T : Type) (update_fn : Computation σ T) (s : σ) :
    (CachedGraphicsData.new update_fn s).1.data = (update_fn s).1 ∧
    (CachedGraphicsData.new update_fn s).1.dependency_tracker =
      ⟨PropertyTracker.default.dependencies ++ (update_fn s).2.2⟩ ∧
    (CachedGraphicsData.new update_fn s).2 = (update_fn s).2.1 :=
  ⟨rfl, rfl, rfl⟩

/-- C9: `FontRequest::merge` is field-wise left-biased (each field of the
result is the receiver's field when present and the other request's field
otherwise), hence idempotent, and the default request is a right
identity. -/
theorem C9_merge_left_biased (a b : FontRequest) :
    ((a.merge b).family = a.family.or b.family ∧
      (a.merge b).weight = a.weight.or b.weight ∧
      (a.merge b).pixel_size = a.pixel_size.or b.pixel_size ∧
      (a.merge b).letter_spacing = a.letter_spacing.or b.letter_spacing) ∧
    (∀ x, a.family = some x → (a.merge b).family = some x) ∧
    (a.family = none → (a.merge b).family = b.family) ∧
    a.merge a = a ∧
    a.merge FontRequest.default = a := by
  refine ⟨⟨rfl, rfl, rfl, rfl⟩, ?_, ?_, ?_, ?_⟩
  · intro x hx
    show a.family.or b.family = some x
    rw [hx]
    rfl
  · intro hx
    show a.family.or b.family = b.family
    rw [hx]
    rfl
  · cases a
    simp [FontRequest.merge]
  · cases a
    simp [FontRequest.merge, FontRequest.default]

/-- Witness for C9: a present family on the left wins; an absent one
falls back to the right. -/
theorem C9_merge_left_biased_witness :
    ((⟨some "A", none, none, none⟩ : FontRequest).merge
      ⟨some "B", none, none, none⟩).family = some "A" ∧
    ((⟨none, some 4, none, none⟩ : FontRequest).merge
      ⟨some "B", none, none, none⟩).family = some "B" :=
  ⟨(C9_merge_left_biased ⟨some "A", none, none, none⟩
      ⟨some "B", none, none, none⟩).2.1 "A" rfl,
   (C9_merge_left_biased ⟨none, some 4, none, none⟩
      ⟨some "B", none, none, none⟩).2.2.1 rfl⟩

/-! ## Claims about the live-preview service -/

theorem mapGet_mapInsert (m : List (String × String)) (k v : String) :
    mapGet (mapInsert m k v) k = some v := by
  induction m with
  | nil => simp [mapInsert, mapGet]
  | cons kv rest ih =>
    by_cases hk : kv.1 = k
    · simp [mapInsert, mapGet, hk]
    · simp [mapInsert, mapGet, hk, ih]

theorem set_contents_no_sender {cache : ContentCache} (h : cache.sender = none)
    (p c : String) : (set_contents cache p c).2 = none := by
  unfold set_contents
  by_cases hdep : p ∈ cache.dependency
  · simp [hdep, h]
  · simp [hdep]

theorem reload_preview_restores_sender (cache : ContentCache)
    (preview : PreviewState) (sender : Nat) (path : String)
    (plb : PostLoadBehavior) (compile : Option String → Option Nat) :
    (reload_preview cache preview sender path plb compile).cache.sender =
      some sender := by
  simp only [reload_preview]
  cases hc : compile (mapGet cache.source_code path) with
  | none => rfl
  | some compiled => rfl

/-- C8: when compilation fails, `reload_preview` leaves the preview state
completely unchanged and its last notification to the listener carries
`Health::Error` and a human-readable message; the preview state is
replaced only when compilation succeeds, and then the last notification
carries `Health::Ok`. -/
theorem C8_reload_preview_error_handling (cache : ContentCache)
    (preview : PreviewState) (sender : Nat) (path : String)
    (plb : PostLoadBehavior) (compile : Option String → Option Nat) :
    (compile (mapGet cache.source_code path) = none →
      (reload_preview cache preview sender path plb compile).preview = preview ∧
      (reload_preview cache preview sender path plb compile).sent.getLast? =
        some (send_notification "Preview not upated" Health.error)) ∧
    (∀ compiled, compile (mapGet cache.source_code path) = some compiled →
      (∃ h, (reload_preview cache preview sender path plb compile).preview.handle
          = some h ∧ h.component = compiled) ∧
      (reload_preview cache preview sender path plb compile).sent.getLast? =
        some (send_notification "Preview Loaded" Health.ok)) := by
  constructor
  · intro hc
    simp only [reload_preview]
    rw [hc]
    exact ⟨rfl, rfl⟩
  · intro compiled hc
    simp only [reload_preview]
    rw [hc]
    cases hh : preview.handle with
    | none => exact ⟨⟨⟨compiled, compiled, true⟩, rfl, rfl⟩, rfl⟩
    | some h0 =>
      cases plb with
      | showAfterLoad => exact ⟨⟨⟨compiled, h0.window, true⟩, rfl, rfl⟩, rfl⟩
      | doNothing => exact ⟨⟨⟨compiled, h0.window, false⟩, rfl, rfl⟩, rfl⟩

/-- Witness for C8: with no cached sources, a compiler that fails leaves
the empty preview state alone and reports an error; one that returns
component 7 installs it and reports Ok. -/
theorem C8_reload_preview_error_handling_witness :
    ((reload_preview ⟨[], [], "", none⟩ ⟨none⟩ 0 "p" PostLoadBehavior.doNothing
        (fun _ => none)).preview = ⟨none⟩ ∧
      (reload_preview ⟨[], [], "", none⟩ ⟨none⟩ 0 "p" PostLoadBehavior.doNothing
        (fun _ => none)).sent.getLast? =
          some (send_notification "Preview not upated" Health.error)) ∧
    ((∃ h, (reload_preview ⟨[], [], "", none⟩ ⟨none⟩ 0 "p"
          PostLoadBehavior.doNothing (fun _ => some 7)).preview.handle =
            some h ∧ h.component = 7) ∧
      (reload_preview ⟨[], [], "", none⟩ ⟨none⟩ 0 "p" PostLoadBehavior.doNothing
        (fun _ => some 7)).sent.getLast? =
          some (send_notification "Preview Loaded" Health.ok)) :=
  ⟨(C8_reload_preview_error_handling ⟨[], [], "", none⟩ ⟨none⟩ 0 "p"
      PostLoadBehavior.doNothing (fun _ => none)).1 rfl,
   (C8_reload_preview_error_handling ⟨[], [], "", none⟩ ⟨none⟩ 0 "p"
      PostLoadBehavior.doNothing (fun _ => some 7)).2 7 rfl⟩

/-- C10: `set_contents` always stores the content under the path; it
triggers a preview reload exactly when the path is a registered dependency
and a sender is currently stashed, in which case it takes the sender out
of the cache — so no further `set_contents` can trigger another reload
until `reload_preview` completes and stores the sender back. -/
theorem C10_set_contents_reload_trigger (cache : ContentCache)
    (path content : String) :
    mapGet (set_contents cache path content).1.source_code path =
      some content ∧
    ((set_contents cache path content).2.isSome = true ↔
      (path ∈ cache.dependency ∧ cache.sender.isSome = true)) ∧
    ((set_contents cache path content).2.isSome = true →
      (set_contents cache path content).1.sender = none ∧
      ∀ (p2 c2 : String),
        (set_contents (set_contents cache path content).1 p2 c2).2 = none) ∧
    (∀ (preview : PreviewState) (sender : Nat) (path2 : String)
      (plb : PostLoadBehavior) (compile : Option String → Option Nat),
      (reload_preview (set_contents cache path content).1 preview sender path2
        plb compile).cache.sender = some sender) := by
  have hstore : mapGet (set_contents cache path content).1.source_code path =
      some content := by
    unfold set_contents
    by_cases hdep : path ∈ cache.dependency
    · cases hs : cache.sender <;> simp [hdep, hs, mapGet_mapInsert]
    · simp [hdep, mapGet_mapInsert]
  have htrig : (set_contents cache path content).2.isSome = true ↔
      (path ∈ cache.dependency ∧ cache.sender.isSome = true) := by
    unfold set_contents
    by_cases hdep : path ∈ cache.dependency
    · cases hs : cache.sender <;> simp [hdep, hs]
    · simp [hdep]
  have hsender : (set_contents cache path content).2.isSome = true →
      (set_contents cache path content).1.sender = none := by
    intro h
    obtain ⟨hdep, hs⟩ := htrig.mp h
    unfold set_contents
    cases hso : cache.sender with
    | none => rw [hso] at hs; cases hs
    | some sndr => simp [hdep, hso]
  exact ⟨hstore, htrig,
    fun h => ⟨hsender h, fun p2 c2 => set_contents_no_sender (hsender h) p2 c2⟩,
    fun preview sender path2 plb compile =>
      reload_preview_restores_sender _ preview sender path2 plb compile⟩

/-- Witness for C10: the path "a" is a dependency and sender 5 is stashed,
so updating "a" stores the text, takes the sender, prevents a second
trigger, and a subsequent reload stores the sender back. -/
theorem C10_set_contents_reload_trigger_witness :
    mapGet (set_contents ⟨[], ["a"], "r", some 5⟩ "a" "txt").1.source_code "a" =
      some "txt" ∧
    (set_contents ⟨[], ["a"], "r", some 5⟩ "a" "txt").1.sender = none ∧
    (set_contents (set_contents ⟨[], ["a"], "r", some 5⟩ "a" "txt").1 "a"
      "t2").2 = none ∧
    (reload_preview (set_contents ⟨[], ["a"], "r", some 5⟩ "a" "txt").1 ⟨none⟩ 5
      "r" PostLoadBehavior.doNothing (fun _ => none)).cache.sender = some 5 :=
  have hC := C10_set_contents_reload_trigger ⟨[], ["a"], "r", some 5⟩ "a" "txt"
  ⟨hC.1, (hC.2.2.1 (by decide)).1, (hC.2.2.1 (by decide)).2 "a" "t2",
   hC.2.2.2 ⟨none⟩ 5 "r" PostLoadBehavior.doNothing (fun _ => none)⟩

end Slint
